import Mathlib

/-!
Verification of the tabu-search TSP core (`src/algorithms/tabu_search.py`).

The module is embedded shallowly:
* distances (Python floats) are modelled by an arbitrary `LinearOrderedAddCommGroup`
  (the code only ever adds and compares them); concrete evaluations instantiate it at `ℤ`;
* Python lists become `List`, the `deque` of the tabu list becomes a `List` used at the
  front (popleft) and back (append);
* the wall clock read `time.time() - start_time < time_limit` at the top of the search
  loop becomes an oracle `timeOk : Nat → Bool` consulted once per loop entry, indexed by
  the number of completed iterations;
* the optional progress callback is modelled by recording, in the search state, the exact
  argument tuples the code passes to a supplied callback (the code ignores its return
  value, so the recorded event list is the whole observable behaviour);
* mutation of the caller's list is studied separately with an explicit heap model at the
  end of the definitions (`Heap`, `tabu_search_optimization_ref`).
-/

/-- Moves are the Python tuples `('2opt', i, j)`: a tag naming the move family and the
two edge positions. -/
abbrev Move := String × Nat × Nat

/-- Embedding of `TabuList._moves_match` (tabu_search.py lines 145-162): two moves match
when they involve the same indices, compared both ways since `(i,j)` and `(j,i)` are the
same 2-opt move.  As in the source, the move type tag is not compared. -/
def movesMatch (move1 move2 : Move) : Bool :=
  decide ((move1.2.1 = move2.2.1 ∧ move1.2.2 = move2.2.2) ∨
          (move1.2.1 = move2.2.2 ∧ move1.2.2 = move2.2.1))

/-- State of the `TabuList` class: the tenure and the deque of
`(move, expiration_iteration)` entries (front of the deque = head of the list). -/
structure TabuList where
  tenure : Nat
  entries : List (Move × Nat)

/-- Embedding of `TabuList._clean_expired` (lines 164-172): pop entries from the front
while the front entry's expiration is `≤ current_iteration`.  The loop stops at the first
unexpired entry, so later expired entries survive when expirations are out of order. -/
def cleanExpiredEntries (t : Nat) : List (Move × Nat) → List (Move × Nat)
  | [] => []
  | (mv, e) :: rest => if e ≤ t then cleanExpiredEntries t rest else (mv, e) :: rest

/-- `TabuList._clean_expired` acting on the whole structure. -/
def clean_expired (tl : TabuList) (t : Nat) : TabuList :=
  { tl with entries := cleanExpiredEntries t tl.entries }

/-- Embedding of `TabuList.is_tabu` (lines 124-143): first clean expired moves, then scan
the remaining entries for a match.  The method mutates the deque, so the model returns
the answer together with the updated tabu list. -/
def is_tabu (tl : TabuList) (mv : Move) (t : Nat) : Bool × TabuList :=
  let tl' := clean_expired tl t
  (tl'.entries.any (fun p => movesMatch mv p.1), tl')

/-- Embedding of `TabuList.add_move` (lines 112-122): append
`(move, current_iteration + tenure)` at the back of the deque. -/
def add_move (tl : TabuList) (mv : Move) (t : Nat) : TabuList :=
  { tl with entries := tl.entries ++ [(mv, t + tl.tenure)] }

/-- Embedding of `calculate_tour_length` (lines 11-32): the sum of the distances between
consecutive cities plus the closing edge from the last city back to the first.
Out-of-range indices (impossible in the code's call sites) read as city `0`. -/
def calculate_tour_length {α : Type} [LinearOrderedAddCommGroup α]
    (tour : List Nat) (D : Nat → Nat → α) : α :=
  ((List.range (tour.length - 1)).map
      (fun i => D (tour.getD i 0) (tour.getD (i + 1) 0))).sum
    + D (tour.getD (tour.length - 1) 0) (tour.getD 0 0)

/-- Embedding of `apply_2opt_move` (lines 35-54): copy the tour and reverse the slice
`[i+1 : j+1]`, i.e. positions `i+1 .. j`. -/
def apply_2opt_move (tour : List Nat) (i j : Nat) : List Nat :=
  tour.take (i + 1) ++ ((tour.drop (i + 1)).take (j - i)).reverse ++ tour.drop (j + 1)

/-- Index pairs enumerated by the two loops of `generate_2opt_neighbors` (lines 57-83):
first `i in range(n-2), j in range(i+2, n-1)`, then the wrap-around block
`i in range(n-2)` with `j = n-1`. -/
def moveIndexPairs (n : Nat) : List (Nat × Nat) :=
  ((List.range (n - 2)).flatMap
      (fun i => (List.range' (i + 2) ((n - 1) - (i + 2))).map (fun j => (i, j))))
    ++ (List.range (n - 2)).map (fun i => (i, n - 1))

/-- Embedding of `generate_2opt_neighbors` (lines 57-83): for each enumerated index pair,
the 2-opt neighbor tour together with the move `('2opt', i, j)` that produced it. -/
def generate_2opt_neighbors (tour : List Nat) : List (List Nat × Move) :=
  (moveIndexPairs tour.length).map
    (fun p => (apply_2opt_move tour p.1 p.2, ("2opt", p.1, p.2)))

/-- The comparison of line 296 against the running best neighbor:
`best_neighbor_length` starts at `float('inf')` (the `none` accumulator), so every
length beats an empty accumulator. -/
def accBetter {α β : Type} [LinearOrderedAddCommGroup β] (acc : Option (α × β × Move))
    (len : β) : Bool :=
  match acc with
  | none => true
  | some (_, bl, _) => decide (len < bl)

/-- Embedding of the neighborhood scan of `tabu_search_optimization` (lines 282-299):
walk the neighbor list keeping the best admissible neighbor seen so far
(`best_neighbor_length` starts at `float('inf')`, modelled by the `none` accumulator).
`is_tabu` is called for every neighbor and mutates the tabu list, which is threaded
through.  The element type of neighbors is abstract (`α`) with an explicit length
function so that the same scan serves the plain model and the heap model. -/
def scanNeighbors {α β : Type} [LinearOrderedAddCommGroup β] (lenOf : α → β)
    (asp : Bool) (bestL : β) (t : Nat) :
    List (α × Move) → TabuList → Option (α × β × Move) → Option (α × β × Move) × TabuList
  | [], tl, acc => (acc, tl)
  | (nb, mv) :: rest, tl, acc =>
    let len := lenOf nb
    let r := is_tabu tl mv t
    let acc' := if (!r.1 || (asp && decide (len < bestL))) && accBetter acc len
                then some (nb, len, mv) else acc
    scanNeighbors lenOf asp bestL t rest r.2 acc'

/-- Boolean form of the admissibility test of line 295: a neighbor passes the filter when
its move is not tabu, or aspiration is enabled and it beats the best known length. -/
def admissibleB {β : Type} [LinearOrderedAddCommGroup β] (tl : TabuList) (asp : Bool)
    (bestL : β) (t : Nat) (len : β) (mv : Move) : Bool :=
  !(is_tabu tl mv t).1 || (asp && decide (len < bestL))

/-- Argument tuple of one invocation of the progress callback (line 325). -/
structure ProgressEvent (α : Type) where
  iteration : Nat
  currentTour : List Nat
  currentLength : α
  bestTour : List Nat
  bestLength : α
  moveInfo : Option Move

/-- Configuration of `tabu_search_optimization` (lines 224-227).  `tabuTenure` is the
integer form of the `tabu_tenure` argument; the string strategies are resolved by
`process_tabu_tenure`, modelled separately below. -/
structure SearchConfig where
  tabuTenure : Int
  maxIterations : Nat
  aspirationEnabled : Bool
  maxNoImprovement : Option Nat
  intensificationThreshold : Nat
  diversificationThreshold : Nat
  dynamicTabu : Bool

/-- Integer tenure resolution used at line 253 (`process_tabu_tenure` on an `int` input):
the value itself clamped to a minimum of 1. -/
def resolvedTenure (cfg : SearchConfig) : Nat := (max 1 cfg.tabuTenure).toNat

/-- Mutable locals of the search loop (lines 264-274), plus the recorded callback
events. -/
structure SearchState (α : Type) where
  currentTour : List Nat
  currentLength : α
  bestTour : List Nat
  bestLength : α
  iteration : Nat
  noImprovement : Nat
  improvements : Nat
  moveTypes2opt : Nat
  tabu : TabuList
  events : List (ProgressEvent α)

/-- Embedding of lines 280-335 of one iteration: increment the iteration counter,
scan the 2-opt neighborhood, and either commit the chosen neighbor (adding its move to
the tabu list, updating the best solution, and invoking the progress callback) or, when
no admissible neighbor exists, only bump `no_improvement_count` (the code calls no
callback on that path). -/
def commitPhase {α : Type} [LinearOrderedAddCommGroup α] (cfg : SearchConfig)
    (D : Nat → Nat → α) (s : SearchState α) : SearchState α :=
  let it := s.iteration + 1
  let scanned := scanNeighbors (fun nb => calculate_tour_length nb D)
    cfg.aspirationEnabled s.bestLength it (generate_2opt_neighbors s.currentTour)
    s.tabu none
  match scanned.1 with
  | none =>
    { s with iteration := it, noImprovement := s.noImprovement + 1, tabu := scanned.2 }
  | some (nb, len, mv) =>
    let tl2 := add_move scanned.2 mv it
    if len < s.bestLength then
      { s with iteration := it, currentTour := nb, currentLength := len,
               bestTour := nb, bestLength := len,
               moveTypes2opt := s.moveTypes2opt + 1,
               improvements := s.improvements + 1, noImprovement := 0, tabu := tl2,
               events := s.events ++ [⟨it, nb, len, nb, len, some mv⟩] }
    else
      { s with iteration := it, currentTour := nb, currentLength := len,
               noImprovement := s.noImprovement + 1, tabu := tl2,
               events := s.events ++ [⟨it, nb, len, s.bestTour, s.bestLength, some mv⟩] }

/-- Embedding of the dynamic-tenure adjustment (lines 342-351), executed when the
no-improvement break did not fire. -/
def dynamicAdjust {α : Type} (cfg : SearchConfig) (s : SearchState α) : SearchState α :=
  if cfg.dynamicTabu then
    if cfg.diversificationThreshold ≤ s.noImprovement then
      { s with tabu := { s.tabu with
          tenure := min (resolvedTenure cfg * 2) (resolvedTenure cfg + 10) } }
    else if cfg.intensificationThreshold ≤ s.noImprovement then
      { s with tabu := { s.tabu with tenure := max 3 (resolvedTenure cfg / 2) } }
    else
      { s with tabu := { s.tabu with tenure := resolvedTenure cfg } }
  else s

/-- One full pass of the loop body: commit phase, then the no-improvement break check of
lines 337-339 (the returned flag), then — only when not breaking — the dynamic-tenure
adjustment. -/
def searchStep {α : Type} [LinearOrderedAddCommGroup α] (cfg : SearchConfig)
    (maxNoImp : Nat) (D : Nat → Nat → α) (s : SearchState α) : SearchState α × Bool :=
  if maxNoImp ≤ (commitPhase cfg D s).noImprovement then (commitPhase cfg D s, true)
  else (dynamicAdjust cfg (commitPhase cfg D s), false)

/-- The `while` loop of line 279.  The fuel counts the iterations still allowed by
`iteration < max_iterations` (the counter rises by exactly one per pass), and `timeOk`
is the oracle for the wall-clock check at the top of the loop. -/
def searchRun {α : Type} [LinearOrderedAddCommGroup α] (cfg : SearchConfig)
    (maxNoImp : Nat) (D : Nat → Nat → α) (timeOk : Nat → Bool) :
    Nat → SearchState α → SearchState α
  | 0, s => s
  | fuel + 1, s =>
    if timeOk s.iteration then
      if (searchStep cfg maxNoImp D s).2 then (searchStep cfg maxNoImp D s).1
      else searchRun cfg maxNoImp D timeOk fuel (searchStep cfg maxNoImp D s).1
    else s

/-- Embedding of `tabu_search_optimization` (lines 224-353) for an integer
`tabu_tenure`: resolve the tenure, default `max_no_improvement` to twice the resolved
tenure, initialise current and best solutions from (a copy of) the input tour, and run
the loop.  The returned state carries the tuple the code returns
(`best_tour`, `best_length`, `iteration`, move-type counts) among its fields. -/
def tabu_search_optimization {α : Type} [LinearOrderedAddCommGroup α]
    (cfg : SearchConfig) (D : Nat → Nat → α) (timeOk : Nat → Bool)
    (tour : List Nat) : SearchState α :=
  let maxNoImp := cfg.maxNoImprovement.getD (resolvedTenure cfg * 2)
  let len := calculate_tour_length tour D
  searchRun cfg maxNoImp D timeOk cfg.maxIterations
    { currentTour := tour, currentLength := len, bestTour := tour, bestLength := len,
      iteration := 0, noImprovement := 0, improvements := 0, moveTypes2opt := 0,
      tabu := { tenure := resolvedTenure cfg, entries := [] }, events := [] }

/-! ### Helper lemmas about the tabu list -/

/-- Reflexivity of the move comparison: a move always matches itself. -/
lemma movesMatch_self (mv : Move) : movesMatch mv mv = true := by
  simp [movesMatch]

/-- Swapping the two indices of the probe move does not change the comparison. -/
lemma movesMatch_swap (k : String) (i j : Nat) (p : Move) :
    movesMatch (k, i, j) p = movesMatch (k, j, i) p := by
  simp only [movesMatch]
  exact decide_eq_decide.mpr (by tauto)

/-- Front pruning is idempotent at a fixed iteration. -/
lemma cleanExpiredEntries_idem (t : Nat) (l : List (Move × Nat)) :
    cleanExpiredEntries t (cleanExpiredEntries t l) = cleanExpiredEntries t l := by
  induction l with
  | nil => rfl
  | cons p rest ih =>
    obtain ⟨mv, e⟩ := p
    by_cases h : e ≤ t
    · simp [cleanExpiredEntries, h, ih]
    · simp [cleanExpiredEntries, h]

/-- When expirations are nondecreasing along the deque, front pruning removes exactly
the entries whose expiration is `≤ t`. -/
lemma cleanExpiredEntries_of_sorted (t : Nat) (l : List (Move × Nat))
    (h : l.Pairwise (fun p q => p.2 ≤ q.2)) :
    cleanExpiredEntries t l = l.filter (fun p => decide (t < p.2)) := by
  induction l with
  | nil => rfl
  | cons p rest ih =>
    obtain ⟨mv, e⟩ := p
    rw [List.pairwise_cons] at h
    by_cases he : e ≤ t
    · have : (decide (t < e)) = false := by simp; omega
      simp [cleanExpiredEntries, he, List.filter_cons, this, ih h.2]
    · have hdec : (decide (t < e)) = true := by simp; omega
      have hall : rest.filter (fun p => decide (t < p.2)) = rest := by
        apply List.filter_eq_self.mpr
        intro p hp
        have := h.1 p hp
        simp only [decide_eq_true_eq]
        omega
      rw [ih h.2] at *
      simp [cleanExpiredEntries, he, List.filter_cons, hdec, hall, ih h.2]

/-- If every entry of the deque has expired by iteration `t`, pruning empties it. -/
lemma cleanExpiredEntries_eq_nil (t : Nat) (l : List (Move × Nat))
    (h : ∀ p ∈ l, p.2 ≤ t) : cleanExpiredEntries t l = [] := by
  induction l with
  | nil => rfl
  | cons p rest ih =>
    obtain ⟨mv, e⟩ := p
    have he : e ≤ t := h (mv, e) (by simp)
    simp only [cleanExpiredEntries, if_pos he]
    exact ih (fun q hq => h q (by simp [hq]))

/-- An entry whose expiration is still in the future survives front pruning, wherever it
sits in the deque. -/
lemma mem_cleanExpiredEntries_append (t : Nat) (l : List (Move × Nat)) (mv : Move)
    (e : Nat) (h : t < e) : (mv, e) ∈ cleanExpiredEntries t (l ++ [(mv, e)]) := by
  induction l with
  | nil =>
    simp only [List.nil_append, cleanExpiredEntries]
    rw [if_neg (by omega)]
    simp
  | cons p rest ih =>
    obtain ⟨mv1, e1⟩ := p
    by_cases h1 : e1 ≤ t
    · simpa [cleanExpiredEntries, h1] using ih
    · simp only [List.cons_append, cleanExpiredEntries, if_neg h1]
      exact List.mem_cons_of_mem _ (List.mem_append_right _ (by simp))

/-! ### C2: pruning inside `is_tabu`, and symmetry of the move key -/

/-- C2 counterexample: on the tabu-list state
`[(('2opt',0,2), 10), (('2opt',1,3), 5)]` (reachable when dynamic tenure lowers the
tenure between two `add_move` calls), `is_tabu(('2opt',1,3), 5)` returns `true` even
though the only matching entry has expiration `5 ≤ 5`: front pruning stops at the
unexpired head, so the expired entry is neither removed nor ignored, while the claim
demands that all entries with expiration `≤ t` be removed first (which would give
`false`). -/
theorem is_tabu_prunes_all_counterexample :
    (is_tabu ⟨10, [(("2opt", 0, 2), 10), (("2opt", 1, 3), 5)]⟩ ("2opt", 1, 3) 5).1 = true ∧
    ((⟨10, [(("2opt", 0, 2), 10), (("2opt", 1, 3), 5)]⟩ : TabuList).entries.filter
        (fun p => decide (5 < p.2))).any (fun p => movesMatch ("2opt", 1, 3) p.1) = false ∧
    (is_tabu ⟨10, [(("2opt", 0, 2), 10), (("2opt", 1, 3), 5)]⟩ ("2opt", 1, 3) 5).2.entries ≠
      (⟨10, [(("2opt", 0, 2), 10), (("2opt", 1, 3), 5)]⟩ : TabuList).entries.filter
        (fun p => decide (5 < p.2)) := by
  decide

/-- C2 (amended): when the stored expirations are nondecreasing along the deque — the
invariant that holds whenever the tenure is never lowered mid-run — `is_tabu` removes
exactly the entries whose expiration is `≤ t` and returns `true` iff some remaining
entry matches the probed move; and for every state the answer is invariant under
swapping the two indices of the probed move. -/
theorem is_tabu_prune_and_symmetry :
    (∀ (tl : TabuList) (mv : Move) (t : Nat),
        tl.entries.Pairwise (fun p q => p.2 ≤ q.2) →
        (is_tabu tl mv t).2.entries = tl.entries.filter (fun p => decide (t < p.2)) ∧
        (is_tabu tl mv t).1 =
          (tl.entries.filter (fun p => decide (t < p.2))).any
            (fun p => movesMatch mv p.1)) ∧
    (∀ (tl : TabuList) (t : Nat) (k : String) (i j : Nat),
        (is_tabu tl (k, i, j) t).1 = (is_tabu tl (k, j, i) t).1) := by
  constructor
  · intro tl mv t h
    have hc := cleanExpiredEntries_of_sorted t tl.entries h
    exact ⟨by simpa [is_tabu, clean_expired] using hc,
           by simp [is_tabu, clean_expired, hc]⟩
  · intro tl t k i j
    simp only [is_tabu]
    exact congrArg _ (funext fun p => movesMatch_swap k i j p.1)

/-- Witness for `is_tabu_prune_and_symmetry` at a concrete sorted state. -/
theorem is_tabu_prune_and_symmetry_witness :
    ((is_tabu ⟨5, [(("2opt", 0, 2), 3), (("2opt", 1, 3), 7)]⟩ ("2opt", 1, 3) 3).2.entries =
        (⟨5, [(("2opt", 0, 2), 3), (("2opt", 1, 3), 7)]⟩ : TabuList).entries.filter
          (fun p => decide (3 < p.2)) ∧
      (is_tabu ⟨5, [(("2opt", 0, 2), 3), (("2opt", 1, 3), 7)]⟩ ("2opt", 1, 3) 3).1 =
        ((⟨5, [(("2opt", 0, 2), 3), (("2opt", 1, 3), 7)]⟩ : TabuList).entries.filter
          (fun p => decide (3 < p.2))).any (fun p => movesMatch ("2opt", 1, 3) p.1)) ∧
    (is_tabu ⟨5, [(("2opt", 1, 2), 9)]⟩ ("2opt", 1, 2) 0).1 =
      (is_tabu ⟨5, [(("2opt", 1, 2), 9)]⟩ ("2opt", 2, 1) 0).1 :=
  ⟨is_tabu_prune_and_symmetry.1 _ _ _ (by decide),
   is_tabu_prune_and_symmetry.2 ⟨5, [(("2opt", 1, 2), 9)]⟩ 0 "2opt" 1 2⟩

/-! ### C3: the tabu window opened by `add_move` -/

/-- C3 counterexample: with tenure 2 and prior state `[(('2opt',1,3), 5)]`,
after `add_move(('2opt',1,3), 0)` the claim demands `is_tabu(('2opt',1,3), t') = false`
for every `t' ≥ 0 + 2`, but at `t' = 2` the code answers `true`: the prior matching
entry with the later expiration is still present. -/
theorem add_move_window_counterexample :
    0 + (⟨2, [(("2opt", 1, 3), 5)]⟩ : TabuList).tenure ≤ 2 ∧
    (is_tabu (add_move ⟨2, [(("2opt", 1, 3), 5)]⟩ ("2opt", 1, 3) 0)
        ("2opt", 1, 3) 2).1 = true := by
  decide

/-- C3 (amended): `add_move` appends `(move, t + tenure)`; afterwards `is_tabu(move, t')`
is `true` for every `t ≤ t' < t + tenure` whatever the prior state, and it is `false`
for every `t' ≥ t + tenure` provided every prior entry expires by `t + tenure` (in
particular from the empty tabu list). -/
theorem add_move_window :
    ∀ (tl : TabuList) (mv : Move) (t : Nat),
      (add_move tl mv t).entries = tl.entries ++ [(mv, t + tl.tenure)] ∧
      (∀ t', t ≤ t' → t' < t + tl.tenure →
        (is_tabu (add_move tl mv t) mv t').1 = true) ∧
      ((∀ p ∈ tl.entries, p.2 ≤ t + tl.tenure) →
        ∀ t', t + tl.tenure ≤ t' → (is_tabu (add_move tl mv t) mv t').1 = false) := by
  intro tl mv t
  refine ⟨rfl, ?_, ?_⟩
  · intro t' h1 h2
    have hmem := mem_cleanExpiredEntries_append t' tl.entries mv (t + tl.tenure) h2
    simp only [is_tabu, clean_expired, add_move]
    exact List.any_eq_true.mpr ⟨(mv, t + tl.tenure), hmem, movesMatch_self mv⟩
  · intro hall t' h1
    have hnil : cleanExpiredEntries t' (tl.entries ++ [(mv, t + tl.tenure)]) = [] := by
      apply cleanExpiredEntries_eq_nil
      intro p hp
      rcases List.mem_append.mp hp with h | h
      · exact le_trans (hall p h) h1
      · simp only [List.mem_singleton] at h
        rw [h]
        exact h1
    simp [is_tabu, clean_expired, add_move, hnil]

/-- Witness for `add_move_window`: with tenure 3 and an empty prior list, after
`add_move` at iteration 2 the move is tabu at iteration 4 and free at iteration 5. -/
theorem add_move_window_witness :
    (is_tabu (add_move ⟨3, []⟩ ("2opt", 0, 2) 2) ("2opt", 0, 2) 4).1 = true ∧
    (is_tabu (add_move ⟨3, []⟩ ("2opt", 0, 2) 2) ("2opt", 0, 2) 5).1 = false :=
  ⟨(add_move_window ⟨3, []⟩ ("2opt", 0, 2) 2).2.1 4 (by decide) (by decide),
   (add_move_window ⟨3, []⟩ ("2opt", 0, 2) 2).2.2 (by simp) 5 (by decide)⟩

/-! ### C9: the 2-opt move is self-inverse -/

/-- C9: for positions `i + 1 < j ≤ n - 1` of a tour of length `n`, applying
`apply_2opt_move` twice at the same positions returns the original tour. -/
theorem apply_2opt_move_involutive :
    ∀ (tour : List Nat) (i j : Nat), i + 1 < j → j < tour.length →
      apply_2opt_move (apply_2opt_move tour i j) i j = tour := by
  intro tour i j hij hj
  have hA : (tour.take (i + 1)).length = i + 1 := by
    rw [List.length_take]
    omega
  have hBr : (((tour.drop (i + 1)).take (j - i)).reverse).length = j - i := by
    rw [List.length_reverse, List.length_take, List.length_drop]
    omega
  have hAB : (tour.take (i + 1) ++ ((tour.drop (i + 1)).take (j - i)).reverse).length
      = j + 1 := by
    rw [List.length_append, hA, hBr]
    omega
  have e1 : List.take (i + 1)
      (tour.take (i + 1) ++ ((tour.drop (i + 1)).take (j - i)).reverse ++ tour.drop (j + 1))
      = tour.take (i + 1) := by
    rw [List.append_assoc]
    exact List.take_left' hA
  have e2 : List.drop (i + 1)
      (tour.take (i + 1) ++ ((tour.drop (i + 1)).take (j - i)).reverse ++ tour.drop (j + 1))
      = ((tour.drop (i + 1)).take (j - i)).reverse ++ tour.drop (j + 1) := by
    rw [List.append_assoc]
    exact List.drop_left' hA
  have e3 : List.drop (j + 1)
      (tour.take (i + 1) ++ ((tour.drop (i + 1)).take (j - i)).reverse ++ tour.drop (j + 1))
      = tour.drop (j + 1) := List.drop_left' hAB
  have htk : tour.take (i + 1) ++ (tour.drop (i + 1)).take (j - i) = tour.take (j + 1) := by
    have hsum : i + 1 + (j - i) = j + 1 := by omega
    rw [← hsum]
    exact (List.take_add tour (i + 1) (j - i)).symm
  unfold apply_2opt_move
  rw [e1, e2, e3, List.take_left' hBr, List.reverse_reverse, htk, List.take_append_drop]

/-- Witness for `apply_2opt_move_involutive` on a concrete tour. -/
theorem apply_2opt_move_involutive_witness :
    apply_2opt_move (apply_2opt_move [0, 1, 2, 3, 4] 1 3) 1 3 = [0, 1, 2, 3, 4] :=
  apply_2opt_move_involutive [0, 1, 2, 3, 4] 1 3 (by decide) (by decide)

/-! ### C8: `process_tabu_tenure` -/

/-- ASCII lower-casing of one character, as `str.lower()` acts on the tags the code
compares against (`'sqrt'`, `'log'`). -/
def lowerChar (c : Char) : Char :=
  if 65 ≤ c.toNat ∧ c.toNat ≤ 90 then Char.ofNat (c.toNat + 32) else c

/-- Embedding of `str.lower()` (restricted to ASCII, which covers the compared tags). -/
def lowerStr (s : String) : String := ⟨s.data.map lowerChar⟩

/-- Embedding of `process_tabu_tenure` (lines 183-221) on the two input shapes the code
distinguishes: a string (strategy tag, compared after lower-casing) or an integer.
Python's `math.sqrt` / `math.log` are modelled by the exact real functions and
`round(...)` by Mathlib's `round` (banker's rounding differs from it only at exact
half-integers, which `sqrt n` and `3 log n` never are, `n` being a positive integer).
The final `max(1, tenure)` clamp applies to every branch, as in the source.  Only the
resolved tenure is modelled; the accompanying description string is presentation
only. -/
noncomputable def process_tabu_tenure (input : String ⊕ Int) (n : Nat) : Int :=
  let tenure : Int :=
    match input with
    | Sum.inl s =>
      if lowerStr s = "sqrt" then round (Real.sqrt n)
      else if lowerStr s = "log" then round (Real.log n * 3)
      else 10
    | Sum.inr k => k
  max 1 tenure

/-- C8: the tag `"sqrt"` resolves to `round(sqrt n)` and `"log"` to `round(3 log n)`,
any unrecognized string falls back to the fixed default 10, the result is clamped to a
minimum of 1, and concretely `"sqrt"` resolves to 10 at `n = 100` and to 4 at
`n = 20`. -/
theorem process_tabu_tenure_spec :
    (∀ n : Nat, process_tabu_tenure (Sum.inl "sqrt") n = max 1 (round (Real.sqrt n))) ∧
    (∀ n : Nat, process_tabu_tenure (Sum.inl "log") n = max 1 (round (Real.log n * 3))) ∧
    (∀ (s : String) (n : Nat), lowerStr s ≠ "sqrt" → lowerStr s ≠ "log" →
        process_tabu_tenure (Sum.inl s) n = 10) ∧
    process_tabu_tenure (Sum.inl "sqrt") 100 = 10 ∧
    process_tabu_tenure (Sum.inl "sqrt") 20 = 4 := by
  have hsqrt : ∀ n : Nat,
      process_tabu_tenure (Sum.inl "sqrt") n = max 1 (round (Real.sqrt n)) := by
    intro n
    simp [process_tabu_tenure, show lowerStr "sqrt" = "sqrt" from rfl]
  have h100 : round (Real.sqrt 100) = 10 := by
    have h : (100 : ℝ) = 10 ^ 2 := by norm_num
    rw [h, Real.sqrt_sq (by norm_num : (0 : ℝ) ≤ 10)]
    norm_num [round_eq]
  have h20 : round (Real.sqrt 20) = 4 := by
    have h1 : (3.5 : ℝ) ≤ Real.sqrt 20 := by
      have h : (3.5 : ℝ) = Real.sqrt (3.5 ^ 2) := (Real.sqrt_sq (by norm_num)).symm
      rw [h]
      exact Real.sqrt_le_sqrt (by norm_num)
    have h2 : Real.sqrt 20 < 4.5 := by
      have h : (4.5 : ℝ) = Real.sqrt (4.5 ^ 2) := (Real.sqrt_sq (by norm_num)).symm
      rw [h]
      exact Real.sqrt_lt_sqrt (by norm_num) (by norm_num)
    rw [round_eq]
    have hlo : (4 : ℤ) ≤ ⌊Real.sqrt 20 + 1 / 2⌋ := by
      apply Int.le_floor.mpr
      push_cast
      linarith
    have hhi : ⌊Real.sqrt 20 + 1 / 2⌋ < 5 := by
      apply Int.floor_lt.mpr
      push_cast
      linarith
    omega
  refine ⟨hsqrt, ?_, ?_, ?_, ?_⟩
  · intro n
    simp [process_tabu_tenure, show lowerStr "log" = "log" from rfl,
          show ("log" : String) ≠ "sqrt" from by decide]
  · intro s n hs hl
    simp [process_tabu_tenure, hs, hl]
  · have hc : ((100 : ℕ) : ℝ) = (100 : ℝ) := by norm_num
    rw [hsqrt 100, hc, h100]
    decide
  · have hc : ((20 : ℕ) : ℝ) = (20 : ℝ) := by norm_num
    rw [hsqrt 20, hc, h20]
    decide

/-- Witness for `process_tabu_tenure_spec`: an unrecognized tag falls back to 10. -/
theorem process_tabu_tenure_spec_witness :
    process_tabu_tenure (Sum.inl "linear") 7 = 10 :=
  process_tabu_tenure_spec.2.2.1 "linear" 7 (by decide) (by decide)

/-! ### C4: every 2-opt move is generated exactly once -/

/-- Occurrence counter used to state "appears exactly once". -/
def countOcc {β : Type} [DecidableEq β] (b : β) : List β → Nat
  | [] => 0
  | a :: l => (if a = b then 1 else 0) + countOcc b l

lemma countOcc_append {β : Type} [DecidableEq β] (b : β) (l1 l2 : List β) :
    countOcc b (l1 ++ l2) = countOcc b l1 + countOcc b l2 := by
  induction l1 with
  | nil => simp [countOcc]
  | cons a l ih =>
    rw [List.cons_append]
    simp only [countOcc, ih]
    omega

lemma countOcc_map_inj {α β : Type} [DecidableEq α] [DecidableEq β] (f : α → β)
    (hf : ∀ a b, f a = f b → a = b) (l : List α) (a : α) :
    countOcc (f a) (l.map f) = countOcc a l := by
  induction l with
  | nil => rfl
  | cons x l ih =>
    simp only [List.map_cons, countOcc, ih]
    congr 1
    by_cases h : x = a
    · rw [h]
      simp
    · rw [if_neg h, if_neg (fun hh => h (hf _ _ hh))]

lemma countOcc_eq_zero_of_not_mem {β : Type} [DecidableEq β] (b : β) (l : List β)
    (h : b ∉ l) : countOcc b l = 0 := by
  induction l with
  | nil => rfl
  | cons a l ih =>
    simp only [List.mem_cons, not_or] at h
    simp only [countOcc, ih h.2]
    rw [if_neg (fun hh : a = b => h.1 hh.symm)]

lemma countOcc_range (i k : Nat) : countOcc i (List.range k) = if i < k then 1 else 0 := by
  induction k with
  | zero => simp [countOcc]
  | succ k ih =>
    rw [List.range_succ, countOcc_append, ih]
    simp only [countOcc]
    split_ifs <;> omega

lemma countOcc_range' (j s len : Nat) :
    countOcc j (List.range' s len) = if s ≤ j ∧ j < s + len then 1 else 0 := by
  induction len generalizing s with
  | zero =>
    simp only [List.range', countOcc]
    split_ifs <;> omega
  | succ len ih =>
    rw [List.range'_succ]
    simp only [countOcc, ih (s + 1)]
    split_ifs <;> omega

lemma countOcc_flatMap {α β : Type} [DecidableEq β] (f : α → List β) (l : List α)
    (b : β) : countOcc b (l.flatMap f) = (l.map (fun a => countOcc b (f a))).sum := by
  induction l with
  | nil => rfl
  | cons a l ih => rw [List.flatMap_cons, countOcc_append, List.map_cons, List.sum_cons, ih]

lemma sum_ite_of_nodup (l : List Nat) (i : Nat) (c : Nat) (h : l.Nodup) :
    (l.map (fun x => if x = i then c else 0)).sum = if i ∈ l then c else 0 := by
  induction l with
  | nil => simp
  | cons a l ih =>
    rw [List.nodup_cons] at h
    rw [List.map_cons, List.sum_cons, ih h.2]
    by_cases ha : a = i
    · subst ha
      rw [if_pos rfl, if_neg h.1, if_pos (List.mem_cons_self a l)]
      omega
    · rw [if_neg ha]
      by_cases hm : i ∈ l
      · rw [if_pos hm, if_pos (List.mem_cons_of_mem _ hm)]
        omega
      · have hnm : i ∉ a :: l := by
          intro hmem
          rcases List.mem_cons.mp hmem with h1 | h1
          · exact ha h1.symm
          · exact hm h1
        rw [if_neg hm, if_neg hnm]

/-- The index pairs enumerated by `generate_2opt_neighbors` are exactly the pairs
`i + 1 < j ≤ n - 1`, each produced once. -/
lemma countOcc_moveIndexPairs (n i j : Nat) (hn : 3 ≤ n) :
    countOcc (i, j) (moveIndexPairs n) = if i + 1 < j ∧ j ≤ n - 1 then 1 else 0 := by
  unfold moveIndexPairs
  rw [countOcc_append, countOcc_flatMap]
  have hwrap : countOcc (i, j) ((List.range (n - 2)).map (fun i' => (i', n - 1)))
      = if j = n - 1 ∧ i < n - 2 then 1 else 0 := by
    by_cases hj : j = n - 1
    · have hc := countOcc_map_inj (fun i' : Nat => (i', n - 1))
        (fun a b h => by simpa using congrArg Prod.fst h) (List.range (n - 2)) i
      rw [hj, show ((i, n - 1) : Nat × Nat) = (fun i' : Nat => (i', n - 1)) i from rfl, hc,
          countOcc_range]
      simp
    · rw [countOcc_eq_zero_of_not_mem, if_neg (fun hc => hj hc.1)]
      intro hmem
      obtain ⟨i', _, heq⟩ := List.mem_map.mp hmem
      exact hj (congrArg Prod.snd heq).symm
  have hpt : ∀ i' : Nat,
      countOcc (i, j)
          ((List.range' (i' + 2) ((n - 1) - (i' + 2))).map (fun j' => (i', j')))
        = if i' = i then (if i + 2 ≤ j ∧ j < n - 1 then 1 else 0) else 0 := by
    intro i'
    by_cases hi : i' = i
    · subst hi
      have hc := countOcc_map_inj (fun j' : Nat => (i', j'))
        (fun a b h => by simpa using congrArg Prod.snd h)
        (List.range' (i' + 2) ((n - 1) - (i' + 2))) j
      rw [show ((i', j) : Nat × Nat) = (fun j' : Nat => (i', j')) j from rfl, hc,
          countOcc_range', if_pos rfl]
      split_ifs <;> omega
    · rw [countOcc_eq_zero_of_not_mem, if_neg hi]
      intro hmem
      obtain ⟨j', _, heq⟩ := List.mem_map.mp hmem
      exact hi (congrArg Prod.fst heq)
  have hmapeq : (List.range (n - 2)).map
        (fun i' => countOcc (i, j)
          ((List.range' (i' + 2) ((n - 1) - (i' + 2))).map (fun j' => (i', j'))))
      = (List.range (n - 2)).map
          (fun i' => if i' = i then (if i + 2 ≤ j ∧ j < n - 1 then 1 else 0) else 0) :=
    List.map_congr_left (fun a _ => hpt a)
  rw [hmapeq, sum_ite_of_nodup _ _ _ (List.nodup_range _), hwrap]
  simp only [List.mem_range]
  split_ifs <;> omega

/-- C4: in a tour of length `n ≥ 3`, `generate_2opt_neighbors` produces the move
`('2opt', i, j)` exactly once when `i + 1 < j ≤ n - 1` and never otherwise; in
particular the wrap-around moves `j = n - 1` are produced exactly once for each
`i < n - 2` (not duplicated with the general loop). -/
theorem generate_2opt_neighbors_exactly_once :
    ∀ (tour : List Nat), 3 ≤ tour.length →
      (∀ i j : Nat,
        countOcc (("2opt", i, j) : Move)
            ((generate_2opt_neighbors tour).map (fun p => p.2)) =
          if i + 1 < j ∧ j ≤ tour.length - 1 then 1 else 0) ∧
      (∀ i : Nat,
        countOcc (("2opt", i, tour.length - 1) : Move)
            ((generate_2opt_neighbors tour).map (fun p => p.2)) =
          if i < tour.length - 2 then 1 else 0) := by
  intro tour hn
  have hmain : ∀ i j : Nat,
      countOcc (("2opt", i, j) : Move)
          ((generate_2opt_neighbors tour).map (fun p => p.2)) =
        if i + 1 < j ∧ j ≤ tour.length - 1 then 1 else 0 := by
    intro i j
    have hmap : (generate_2opt_neighbors tour).map (fun p => p.2)
        = (moveIndexPairs tour.length).map (fun p => (("2opt", p.1, p.2) : Move)) := by
      unfold generate_2opt_neighbors
      rw [List.map_map]
      rfl
    have hc := countOcc_map_inj (fun p : Nat × Nat => (("2opt", p.1, p.2) : Move))
      (fun a b h => by
        obtain ⟨a1, a2⟩ := a
        obtain ⟨b1, b2⟩ := b
        simpa using h)
      (moveIndexPairs tour.length) (i, j)
    rw [hmap,
        show (("2opt", i, j) : Move)
          = (fun p : Nat × Nat => (("2opt", p.1, p.2) : Move)) (i, j) from rfl,
        hc, countOcc_moveIndexPairs _ _ _ hn]
  refine ⟨hmain, fun i => ?_⟩
  rw [hmain i (tour.length - 1)]
  split_ifs <;> omega

/-- Witness for `generate_2opt_neighbors_exactly_once` on a concrete 4-city tour. -/
theorem generate_2opt_neighbors_exactly_once_witness :
    countOcc (("2opt", 0, 2) : Move)
        ((generate_2opt_neighbors [0, 1, 2, 3]).map (fun p => p.2)) = 1 ∧
    countOcc (("2opt", 1, 3) : Move)
        ((generate_2opt_neighbors [0, 1, 2, 3]).map (fun p => p.2)) = 1 ∧
    countOcc (("2opt", 0, 1) : Move)
        ((generate_2opt_neighbors [0, 1, 2, 3]).map (fun p => p.2)) = 0 := by
  have h := (generate_2opt_neighbors_exactly_once [0, 1, 2, 3] (by decide)).1
  exact ⟨by rw [h 0 2]; decide, by rw [h 1 3]; decide, by rw [h 0 1]; decide⟩

/-! ### C1: admissibility and first-strict-minimum selection in the scan -/

/-- Pruning at a fixed iteration does not change the answer of `is_tabu` at that
iteration (front pruning is idempotent). -/
lemma is_tabu_fst_clean (tl : TabuList) (mv : Move) (t : Nat) :
    (is_tabu (clean_expired tl t) mv t).1 = (is_tabu tl mv t).1 := by
  simp [is_tabu, clean_expired, cleanExpiredEntries_idem]

/-- Admissibility is the same whether judged against the tabu list before or after the
pruning performed by an earlier `is_tabu` call of the same iteration. -/
lemma admissibleB_clean {β : Type} [LinearOrderedAddCommGroup β] (tl : TabuList)
    (asp : Bool) (bestL : β) (t : Nat) (len : β) (mv : Move) :
    admissibleB (clean_expired tl t) asp bestL t len mv
      = admissibleB tl asp bestL t len mv := by
  simp [admissibleB, is_tabu_fst_clean]

lemma accBetter_trans {α β : Type} [LinearOrderedAddCommGroup β]
    (acc : Option (α × β × Move)) (x y : β) (hy : accBetter acc y = true) (hxy : x < y) :
    accBetter acc x = true := by
  cases acc with
  | none => rfl
  | some v =>
    obtain ⟨_, bl, _⟩ := v
    simp only [accBetter, decide_eq_true_eq] at hy ⊢
    exact lt_trans hxy hy

lemma accBetter_false_lt {α β : Type} [LinearOrderedAddCommGroup β]
    (acc : Option (α × β × Move)) (x y : β) (hx : accBetter acc x = true)
    (hy : accBetter acc y = false) : x < y := by
  cases acc with
  | none => simp [accBetter] at hy
  | some v =>
    obtain ⟨_, bl, _⟩ := v
    simp only [accBetter, decide_eq_true_eq, decide_eq_false_iff_not, not_lt] at hx hy
    exact lt_of_lt_of_le hx hy

/-- Generalized specification of the neighborhood scan: either no element of the list is
both admissible and better than the accumulator (and the accumulator is returned), or
the scan returns the first element that attains the strict minimum length among the
admissible elements that beat the accumulator. -/
lemma scanNeighbors_go_spec {α β : Type} [LinearOrderedAddCommGroup β] (lenOf : α → β)
    (asp : Bool) (bestL : β) (t : Nat) :
    ∀ (L : List (α × Move)) (tl : TabuList) (acc : Option (α × β × Move)),
      ((scanNeighbors lenOf asp bestL t L tl acc).1 = acc ∧
        ∀ p ∈ L, admissibleB tl asp bestL t (lenOf p.1) p.2 = true →
          accBetter acc (lenOf p.1) = false) ∨
      (∃ nb mv L1 L2, L = L1 ++ (nb, mv) :: L2 ∧
        (scanNeighbors lenOf asp bestL t L tl acc).1 = some (nb, lenOf nb, mv) ∧
        admissibleB tl asp bestL t (lenOf nb) mv = true ∧
        accBetter acc (lenOf nb) = true ∧
        (∀ p ∈ L1, admissibleB tl asp bestL t (lenOf p.1) p.2 = true →
          lenOf nb < lenOf p.1) ∧
        (∀ p ∈ L2, admissibleB tl asp bestL t (lenOf p.1) p.2 = true →
          lenOf nb ≤ lenOf p.1)) := by
  intro L
  induction L with
  | nil =>
    intro tl acc
    exact Or.inl ⟨rfl, by simp⟩
  | cons hd rest ih =>
    intro tl acc
    obtain ⟨nb, mv⟩ := hd
    have hstep : scanNeighbors lenOf asp bestL t ((nb, mv) :: rest) tl acc
        = scanNeighbors lenOf asp bestL t rest (clean_expired tl t)
            (if admissibleB tl asp bestL t (lenOf nb) mv && accBetter acc (lenOf nb)
             then some (nb, lenOf nb, mv) else acc) := rfl
    by_cases hcond :
        (admissibleB tl asp bestL t (lenOf nb) mv && accBetter acc (lenOf nb)) = true
    · rw [Bool.and_eq_true] at hcond
      obtain ⟨hadm, hbet⟩ := hcond
      have hcondb : (admissibleB tl asp bestL t (lenOf nb) mv
          && accBetter acc (lenOf nb)) = true := by
        rw [Bool.and_eq_true]
        exact ⟨hadm, hbet⟩
      have hstep' : scanNeighbors lenOf asp bestL t ((nb, mv) :: rest) tl acc
          = scanNeighbors lenOf asp bestL t rest (clean_expired tl t)
              (some (nb, lenOf nb, mv)) := by
        rw [hstep, if_pos hcondb]
      rcases ih (clean_expired tl t) (some (nb, lenOf nb, mv)) with
        ⟨hres, hall⟩ | ⟨nb', mv', R1, R2, hsplit, hres, hadm', hbet', hR1, hR2⟩
      · refine Or.inr ⟨nb, mv, [], rest, rfl, ?_, hadm, hbet, by simp, ?_⟩
        · rw [hstep', hres]
        · intro p hp hpadm
          have := hall p hp (by rwa [admissibleB_clean])
          simp only [accBetter, decide_eq_false_iff_not, not_lt] at this
          exact this
      · have hlt : lenOf nb' < lenOf nb := by
          simpa [accBetter] using hbet'
        refine Or.inr ⟨nb', mv', (nb, mv) :: R1, R2, by rw [hsplit, List.cons_append], ?_,
          ?_, accBetter_trans acc _ _ hbet hlt, ?_, ?_⟩
        · rw [hstep', hres]
        · rwa [admissibleB_clean] at hadm'
        · intro p hp hpadm
          rcases List.mem_cons.mp hp with h1 | h1
          · rw [h1]
            exact hlt
          · exact hR1 p h1 (by rwa [admissibleB_clean])
        · intro p hp hpadm
          exact hR2 p hp (by rwa [admissibleB_clean])
    · have hcond' := Bool.not_eq_true _ ▸ hcond
      have hstep' : scanNeighbors lenOf asp bestL t ((nb, mv) :: rest) tl acc
          = scanNeighbors lenOf asp bestL t rest (clean_expired tl t) acc := by
        rw [hstep, if_neg hcond]
      have hhd : admissibleB tl asp bestL t (lenOf nb) mv = true →
          accBetter acc (lenOf nb) = false := by
        intro ha
        rcases Bool.and_eq_false_iff.mp (Bool.eq_false_iff.mpr hcond) with h | h
        · exact absurd ha (by simp [h])
        · exact h
      rcases ih (clean_expired tl t) acc with
        ⟨hres, hall⟩ | ⟨nb', mv', R1, R2, hsplit, hres, hadm', hbet', hR1, hR2⟩
      · refine Or.inl ⟨by rw [hstep', hres], ?_⟩
        intro p hp hpadm
        rcases List.mem_cons.mp hp with h1 | h1
        · rw [h1] at hpadm ⊢
          exact hhd hpadm
        · exact hall p h1 (by rwa [admissibleB_clean])
      · refine Or.inr ⟨nb', mv', (nb, mv) :: R1, R2, by rw [hsplit, List.cons_append],
          by rw [hstep', hres], by rwa [admissibleB_clean] at hadm', hbet', ?_, ?_⟩
        · intro p hp hpadm
          rcases List.mem_cons.mp hp with h1 | h1
          · rw [h1] at hpadm ⊢
            exact accBetter_false_lt acc _ _ hbet' (hhd hpadm)
          · exact hR1 p h1 (by rwa [admissibleB_clean])
        · intro p hp hpadm
          exact hR2 p hp (by rwa [admissibleB_clean])

/-- C1: in every iteration, a neighbor is admissible exactly when its move is not tabu
at the current iteration or aspiration is enabled and its length beats `best_length`
(that is the predicate `admissibleB`, literally the test of line 295); the scan selects,
among the admissible neighbors, the first one attaining the strictly smallest length
(`none` exactly when no neighbor is admissible), and the commit phase installs the
selected neighbor and its length as the new current solution. -/
theorem scan_selects_first_strict_min :
    (∀ (α β : Type) (inst : LinearOrderedAddCommGroup β) (lenOf : α → β) (asp : Bool)
        (bestL : β) (t : Nat) (L : List (α × Move)) (tl : TabuList),
      match (scanNeighbors lenOf asp bestL t L tl none).1 with
      | none => ∀ p ∈ L, admissibleB tl asp bestL t (lenOf p.1) p.2 = false
      | some (nb, len, mv) =>
          len = lenOf nb ∧
          admissibleB tl asp bestL t (lenOf nb) mv = true ∧
          ∃ L1 L2, L = L1 ++ (nb, mv) :: L2 ∧
            (∀ p ∈ L1, admissibleB tl asp bestL t (lenOf p.1) p.2 = true →
              lenOf nb < lenOf p.1) ∧
            (∀ p ∈ L2, admissibleB tl asp bestL t (lenOf p.1) p.2 = true →
              lenOf nb ≤ lenOf p.1)) ∧
    (∀ (α : Type) (inst : LinearOrderedAddCommGroup α) (cfg : SearchConfig)
        (D : Nat → Nat → α) (s : SearchState α),
      match (scanNeighbors (fun nb => calculate_tour_length nb D) cfg.aspirationEnabled
          s.bestLength (s.iteration + 1) (generate_2opt_neighbors s.currentTour)
          s.tabu none).1 with
      | none => (commitPhase cfg D s).currentTour = s.currentTour
      | some (nb, len, mv) =>
          (commitPhase cfg D s).currentTour = nb ∧
          (commitPhase cfg D s).currentLength = len) := by
  constructor
  · intro α β inst lenOf asp bestL t L tl
    rcases scanNeighbors_go_spec lenOf asp bestL t L tl none with
      ⟨hres, hall⟩ | ⟨nb, mv, L1, L2, hsplit, hres, hadm, _, hL1, hL2⟩
    · rw [hres]
      intro p hp
      have := hall p hp
      by_cases ha : admissibleB tl asp bestL t (lenOf p.1) p.2 = true
      · have hfalse := this ha
        simp [accBetter] at hfalse
      · exact Bool.not_eq_true _ ▸ ha
    · rw [hres]
      exact ⟨rfl, hadm, L1, L2, hsplit, hL1, hL2⟩
  · intro α inst cfg D s
    unfold commitPhase
    cases hscan : (scanNeighbors (fun nb => calculate_tour_length nb D)
        cfg.aspirationEnabled s.bestLength (s.iteration + 1)
        (generate_2opt_neighbors s.currentTour) s.tabu none).1 with
    | none => simp [hscan]
    | some v =>
      obtain ⟨nb, len, mv⟩ := v
      simp only [hscan]
      split_ifs <;> exact ⟨rfl, rfl⟩

/-- Witness for `scan_selects_first_strict_min` at a concrete scan. -/
theorem scan_selects_first_strict_min_witness :
    (match (scanNeighbors (fun nb => calculate_tour_length nb (fun _ _ => (1 : ℤ)))
        true 9 1 (generate_2opt_neighbors [0, 1, 2, 3]) ⟨3, []⟩ none).1 with
      | none => ∀ p ∈ generate_2opt_neighbors [0, 1, 2, 3],
          admissibleB ⟨3, []⟩ true 9 1
            (calculate_tour_length p.1 (fun _ _ => (1 : ℤ))) p.2 = false
      | some (nb, len, mv) =>
          len = calculate_tour_length nb (fun _ _ => (1 : ℤ)) ∧
          admissibleB ⟨3, []⟩ true 9 1
            (calculate_tour_length nb (fun _ _ => (1 : ℤ))) mv = true ∧
          ∃ L1 L2, generate_2opt_neighbors [0, 1, 2, 3] = L1 ++ (nb, mv) :: L2 ∧
            (∀ p ∈ L1, admissibleB ⟨3, []⟩ true 9 1
                (calculate_tour_length p.1 (fun _ _ => (1 : ℤ))) p.2 = true →
              calculate_tour_length nb (fun _ _ => (1 : ℤ))
                < calculate_tour_length p.1 (fun _ _ => (1 : ℤ))) ∧
            (∀ p ∈ L2, admissibleB ⟨3, []⟩ true 9 1
                (calculate_tour_length p.1 (fun _ _ => (1 : ℤ))) p.2 = true →
              calculate_tour_length nb (fun _ _ => (1 : ℤ))
                ≤ calculate_tour_length p.1 (fun _ _ => (1 : ℤ)))) :=
  scan_selects_first_strict_min.1 (List Nat) ℤ inferInstance
    (fun nb => calculate_tour_length nb (fun _ _ => (1 : ℤ))) true 9 1
    (generate_2opt_neighbors [0, 1, 2, 3]) ⟨3, []⟩

/-! ### C5: `best_length` is non-increasing -/

lemma dynamicAdjust_fields {α : Type} (cfg : SearchConfig) (s : SearchState α) :
    (dynamicAdjust cfg s).currentTour = s.currentTour ∧
    (dynamicAdjust cfg s).currentLength = s.currentLength ∧
    (dynamicAdjust cfg s).bestTour = s.bestTour ∧
    (dynamicAdjust cfg s).bestLength = s.bestLength ∧
    (dynamicAdjust cfg s).iteration = s.iteration ∧
    (dynamicAdjust cfg s).noImprovement = s.noImprovement ∧
    (dynamicAdjust cfg s).events = s.events := by
  unfold dynamicAdjust
  split_ifs <;> simp

/-- One commit phase either keeps `best_length` or strictly lowers it (line 310 updates
it only under `current_length < best_length`). -/
lemma commitPhase_best {α : Type} [LinearOrderedAddCommGroup α] (cfg : SearchConfig)
    (D : Nat → Nat → α) (s : SearchState α) :
    (commitPhase cfg D s).bestLength = s.bestLength ∨
    (commitPhase cfg D s).bestLength < s.bestLength := by
  unfold commitPhase
  cases hscan : (scanNeighbors (fun nb => calculate_tour_length nb D)
      cfg.aspirationEnabled s.bestLength (s.iteration + 1)
      (generate_2opt_neighbors s.currentTour) s.tabu none).1 with
  | none => left; simp [hscan]
  | some v =>
    obtain ⟨nb, len, mv⟩ := v
    simp only [hscan]
    by_cases h : len < s.bestLength
    · right
      rw [if_pos h]
      exact h
    · left
      rw [if_neg h]

lemma searchStep_best {α : Type} [LinearOrderedAddCommGroup α] (cfg : SearchConfig)
    (maxNoImp : Nat) (D : Nat → Nat → α) (s : SearchState α) :
    (searchStep cfg maxNoImp D s).1.bestLength = s.bestLength ∨
    (searchStep cfg maxNoImp D s).1.bestLength < s.bestLength := by
  unfold searchStep
  split_ifs
  · exact commitPhase_best cfg D s
  · rw [(dynamicAdjust_fields cfg (commitPhase cfg D s)).2.2.2.1]
    exact commitPhase_best cfg D s

lemma searchRun_best_le {α : Type} [LinearOrderedAddCommGroup α] (cfg : SearchConfig)
    (maxNoImp : Nat) (D : Nat → Nat → α) (timeOk : Nat → Bool) :
    ∀ (fuel : Nat) (s : SearchState α),
      (searchRun cfg maxNoImp D timeOk fuel s).bestLength ≤ s.bestLength := by
  intro fuel
  induction fuel with
  | zero => intro s; exact le_refl _
  | succ fuel ih =>
    intro s
    have hstep : (searchStep cfg maxNoImp D s).1.bestLength ≤ s.bestLength := by
      rcases searchStep_best cfg maxNoImp D s with h | h
      · exact le_of_eq h
      · exact le_of_lt h
    unfold searchRun
    split_ifs
    · exact hstep
    · exact le_trans (ih _) hstep
    · exact le_refl _

/-- C5: one search step never increases `best_length` (it is kept or replaced by a
strictly smaller value), the whole loop never increases it, and therefore
`tabu_search_optimization` never returns a `best_length` above the initial tour's
length. -/
theorem best_length_monotone :
    (∀ (α : Type) (inst : LinearOrderedAddCommGroup α) (cfg : SearchConfig)
        (maxNoImp : Nat) (D : Nat → Nat → α) (s : SearchState α),
      (searchStep cfg maxNoImp D s).1.bestLength = s.bestLength ∨
      (searchStep cfg maxNoImp D s).1.bestLength < s.bestLength) ∧
    (∀ (α : Type) (inst : LinearOrderedAddCommGroup α) (cfg : SearchConfig)
        (maxNoImp : Nat) (D : Nat → Nat → α) (timeOk : Nat → Bool) (fuel : Nat)
        (s : SearchState α),
      (searchRun cfg maxNoImp D timeOk fuel s).bestLength ≤ s.bestLength) ∧
    (∀ (α : Type) (inst : LinearOrderedAddCommGroup α) (cfg : SearchConfig)
        (D : Nat → Nat → α) (timeOk : Nat → Bool) (tour : List Nat),
      (tabu_search_optimization cfg D timeOk tour).bestLength
        ≤ calculate_tour_length tour D) := by
  refine ⟨fun α inst cfg maxNoImp D s => searchStep_best cfg maxNoImp D s,
          fun α inst cfg maxNoImp D timeOk fuel s => searchRun_best_le cfg maxNoImp D timeOk fuel s,
          fun α inst cfg D timeOk tour => ?_⟩
  exact searchRun_best_le cfg _ D timeOk cfg.maxIterations _

/-! ### C7: no input validation before the loop -/

/-- For `n < 3` both loops of the generator are empty. -/
lemma moveIndexPairs_small (n : Nat) (h : n < 3) : moveIndexPairs n = [] := by
  have h2 : n - 2 = 0 := by omega
  simp [moveIndexPairs, h2]

lemma generate_2opt_neighbors_small (tour : List Nat) (h : tour.length < 3) :
    generate_2opt_neighbors tour = [] := by
  unfold generate_2opt_neighbors
  rw [moveIndexPairs_small _ h]
  rfl

lemma commitPhase_small {α : Type} [LinearOrderedAddCommGroup α] (cfg : SearchConfig)
    (D : Nat → Nat → α) (s : SearchState α) (h : s.currentTour.length < 3) :
    commitPhase cfg D s
      = { s with iteration := s.iteration + 1, noImprovement := s.noImprovement + 1 } := by
  unfold commitPhase
  rw [generate_2opt_neighbors_small _ h]
  rfl

lemma searchRun_small {α : Type} [LinearOrderedAddCommGroup α] (cfg : SearchConfig)
    (maxNoImp : Nat) (D : Nat → Nat → α) (timeOk : Nat → Bool) :
    ∀ (fuel : Nat) (s : SearchState α), s.currentTour.length < 3 →
      (searchRun cfg maxNoImp D timeOk fuel s).currentTour = s.currentTour ∧
      (searchRun cfg maxNoImp D timeOk fuel s).bestTour = s.bestTour ∧
      (searchRun cfg maxNoImp D timeOk fuel s).bestLength = s.bestLength := by
  intro fuel
  induction fuel with
  | zero => intro s h; exact ⟨rfl, rfl, rfl⟩
  | succ fuel ih =>
    intro s h
    have hstepfields : (searchStep cfg maxNoImp D s).1.currentTour = s.currentTour ∧
        (searchStep cfg maxNoImp D s).1.bestTour = s.bestTour ∧
        (searchStep cfg maxNoImp D s).1.bestLength = s.bestLength := by
      unfold searchStep
      split_ifs
      · rw [commitPhase_small cfg D s h]
        exact ⟨rfl, rfl, rfl⟩
      · obtain ⟨h1, _, h3, h4, _⟩ := dynamicAdjust_fields cfg (commitPhase cfg D s)
        rw [h1, h3, h4, commitPhase_small cfg D s h]
        exact ⟨rfl, rfl, rfl⟩
    unfold searchRun
    split_ifs
    · exact hstepfields
    · have hlen : (searchStep cfg maxNoImp D s).1.currentTour.length < 3 := by
        rw [hstepfields.1]
        exact h
      obtain ⟨i1, i2, i3⟩ := ih (searchStep cfg maxNoImp D s).1 hlen
      rw [i1, i2, i3]
      exact hstepfields
    · exact ⟨rfl, rfl, rfl⟩

/-- Fixed configuration used for the C7 evidence (tenure 1, 5 iterations allowed,
aspiration on, default `max_no_improvement`, no dynamic tenure). -/
def cfgC7 : SearchConfig := ⟨1, 5, true, none, 20, 50, false⟩

/-- C7 counterexample: the code performs no validation whatsoever.  On the invalid tour
`[0, 1]` (length 2 < 3) `tabu_search_optimization` does not stop before the loop: it
runs two full iterations (stopping only via the no-improvement rule) and returns
normally, while the claim requires a typed `InvalidTour` error before any iteration
executes. -/
theorem invalid_tour_counterexample :
    ([0, 1] : List Nat).length < 3 ∧
    (tabu_search_optimization cfgC7 (fun _ _ => (1 : ℤ)) (fun _ => true)
        [0, 1]).iteration = 2 := by
  decide

/-- C7 (amended): `tabu_search_optimization` performs no input validation and raises
nothing: on a tour with fewer than 3 cities (in particular any tour violating the
claimed precondition by its size) the 2-opt neighborhood is empty, the loop runs and
finds no admissible neighbor, and the function returns the initial tour and its length
normally. -/
theorem tabu_search_no_validation :
    ∀ (α : Type) (inst : LinearOrderedAddCommGroup α) (cfg : SearchConfig)
      (D : Nat → Nat → α) (timeOk : Nat → Bool) (tour : List Nat), tour.length < 3 →
      generate_2opt_neighbors tour = [] ∧
      (tabu_search_optimization cfg D timeOk tour).bestTour = tour ∧
      (tabu_search_optimization cfg D timeOk tour).bestLength
        = calculate_tour_length tour D := by
  intro α inst cfg D timeOk tour h
  refine ⟨generate_2opt_neighbors_small tour h, ?_⟩
  unfold tabu_search_optimization
  obtain ⟨_, h2, h3⟩ := searchRun_small cfg (cfg.maxNoImprovement.getD (resolvedTenure cfg * 2))
    D timeOk cfg.maxIterations
    { currentTour := tour, currentLength := calculate_tour_length tour D,
      bestTour := tour, bestLength := calculate_tour_length tour D,
      iteration := 0, noImprovement := 0, improvements := 0, moveTypes2opt := 0,
      tabu := { tenure := resolvedTenure cfg, entries := [] }, events := [] } h
  exact ⟨h2, h3⟩

/-- Witness for `tabu_search_no_validation` at the concrete invalid tour `[0, 1]`. -/
theorem tabu_search_no_validation_witness :
    generate_2opt_neighbors [0, 1] = [] ∧
    (tabu_search_optimization cfgC7 (fun _ _ => (1 : ℤ)) (fun _ => true) [0, 1]).bestTour
      = [0, 1] ∧
    (tabu_search_optimization cfgC7 (fun _ _ => (1 : ℤ)) (fun _ => true) [0, 1]).bestLength
      = calculate_tour_length [0, 1] (fun _ _ => (1 : ℤ)) :=
  tabu_search_no_validation ℤ inferInstance cfgC7 (fun _ _ => (1 : ℤ)) (fun _ => true)
    [0, 1] (by decide)

/-! ### C6: the progress callback is skipped when no admissible neighbor exists -/

/-- Fixed configuration used for the C6 evidence: tenure 3, two iterations, aspiration
disabled, `max_no_improvement` 10 so the no-improvement rule never fires. -/
def cfgC6 : SearchConfig := ⟨3, 2, false, some 10, 20, 50, false⟩

/-- C6 evidence: on the 3-city tour `[0, 1, 2]` with unit distances, iteration 1 commits
the only neighbor (calling the callback once) and makes its move tabu; in iteration 2
that move is tabu and aspiration is disabled, so no admissible neighbor exists and the
code — whose callback call sits inside the `if best_neighbor is not None` branch —
invokes no callback.  The search performs 2 iterations but records exactly 1 callback
invocation, for iteration 1 only, where the claim demands one per iteration. -/
theorem progress_callback_skipped_on_no_move :
    (tabu_search_optimization cfgC6 (fun _ _ => (1 : ℤ)) (fun _ => true)
        [0, 1, 2]).iteration = 2 ∧
    (tabu_search_optimization cfgC6 (fun _ _ => (1 : ℤ)) (fun _ => true)
        [0, 1, 2]).events.length = 1 ∧
    ((tabu_search_optimization cfgC6 (fun _ _ => (1 : ℤ)) (fun _ => true)
        [0, 1, 2]).events.map (fun e => e.iteration)) = [1] := by
  decide

/-! ### C10: the caller's tour list is never mutated

The aliasing behaviour of the Python code is made explicit with a small heap model:
list objects live in a store of cells addressed by allocation index, `list.copy()`
allocates a fresh cell, and the only in-place write in the module — the slice
assignment of `apply_2opt_move` — targets the cell freshly allocated by the copy on the
line before.  The search loop is replayed on this model with tours as references. -/

/-- Heap of Python list objects: cell `r` holds the list stored in object `r`. -/
abbrev Heap := List (List Nat)

/-- Dereference an object (out-of-range reads, never performed, give `[]`). -/
def hRead (h : Heap) (r : Nat) : List Nat := h.getD r []

/-- Allocate a fresh list object holding `v`; returns the new heap and the reference. -/
def hAlloc (h : Heap) (v : List Nat) : Heap × Nat := (h ++ [v], h.length)

/-- Overwrite the contents of an existing object. -/
def hWrite (h : Heap) (r : Nat) (v : List Nat) : Heap := h.set r v

/-- Heap version of `apply_2opt_move` (lines 35-54): `new_tour = tour.copy()` allocates,
then the slice assignment `new_tour[i+1:j+1] = reversed(tour[i+1:j+1])` writes only the
fresh cell; the value written is the pure `apply_2opt_move` of the argument's
contents. -/
def apply_2opt_move_ref (h : Heap) (r i j : Nat) : Heap × Nat :=
  (hWrite (hAlloc h (hRead h r)).1 (hAlloc h (hRead h r)).2
      (apply_2opt_move (hRead h r) i j),
    (hAlloc h (hRead h r)).2)

/-- Heap version of `generate_2opt_neighbors`: the same index pairs, each neighbor
allocated by `apply_2opt_move_ref`, collected in order with its move. -/
def generate_2opt_neighbors_ref (h : Heap) (r : Nat) : Heap × List (Nat × Move) :=
  (moveIndexPairs (hRead h r).length).foldl
    (fun acc p =>
      ((apply_2opt_move_ref acc.1 r p.1 p.2).1,
        acc.2 ++ [((apply_2opt_move_ref acc.1 r p.1 p.2).2, ("2opt", p.1, p.2))]))
    (h, [])

/-- Search-loop state with tours as heap references (the observer fields of
`SearchState` are omitted: they never touch the heap). -/
structure RefState (α : Type) where
  heap : Heap
  currentRef : Nat
  currentLength : α
  bestRef : Nat
  bestLength : α
  iteration : Nat
  noImprovement : Nat
  tabu : TabuList

/-- Heap produced by generating the neighborhood of the current tour. -/
def genHeap {α : Type} (s : RefState α) : Heap :=
  (generate_2opt_neighbors_ref s.heap s.currentRef).1

/-- Neighbor references produced by generating the neighborhood of the current tour. -/
def genRefs {α : Type} (s : RefState α) : List (Nat × Move) :=
  (generate_2opt_neighbors_ref s.heap s.currentRef).2

/-- The neighborhood scan on references: lengths are read through the heap (the
generated neighbor cells are never written afterwards, so reading after generation
coincides with the code's reading during iteration). -/
def scanRef {α : Type} [LinearOrderedAddCommGroup α] (cfg : SearchConfig)
    (D : Nat → Nat → α) (s : RefState α) :
    Option (Nat × α × Move) × TabuList :=
  scanNeighbors (fun rf => calculate_tour_length (hRead (genHeap s) rf) D)
    cfg.aspirationEnabled s.bestLength (s.iteration + 1) (genRefs s) s.tabu none

/-- Heap version of the commit phase: committing rebinds `current_tour` to the chosen
neighbor's reference (no copy), and on improvement `best_tour = current_tour.copy()`
allocates. -/
def commitPhaseRef {α : Type} [LinearOrderedAddCommGroup α] (cfg : SearchConfig)
    (D : Nat → Nat → α) (s : RefState α) : RefState α :=
  match (scanRef cfg D s).1 with
  | none =>
    { s with heap := genHeap s, iteration := s.iteration + 1,
             noImprovement := s.noImprovement + 1, tabu := (scanRef cfg D s).2 }
  | some (nbRef, len, mv) =>
    if len < s.bestLength then
      { heap := (hAlloc (genHeap s) (hRead (genHeap s) nbRef)).1,
        currentRef := nbRef, currentLength := len,
        bestRef := (hAlloc (genHeap s) (hRead (genHeap s) nbRef)).2,
        bestLength := len, iteration := s.iteration + 1, noImprovement := 0,
        tabu := add_move (scanRef cfg D s).2 mv (s.iteration + 1) }
    else
      { s with heap := genHeap s, currentRef := nbRef, currentLength := len,
               iteration := s.iteration + 1, noImprovement := s.noImprovement + 1,
               tabu := add_move (scanRef cfg D s).2 mv (s.iteration + 1) }

/-- Heap version of the dynamic-tenure adjustment (touches only the tabu tenure). -/
def dynamicAdjustRef {α : Type} (cfg : SearchConfig) (s : RefState α) : RefState α :=
  if cfg.dynamicTabu then
    if cfg.diversificationThreshold ≤ s.noImprovement then
      { s with tabu := { s.tabu with
          tenure := min (resolvedTenure cfg * 2) (resolvedTenure cfg + 10) } }
    else if cfg.intensificationThreshold ≤ s.noImprovement then
      { s with tabu := { s.tabu with tenure := max 3 (resolvedTenure cfg / 2) } }
    else
      { s with tabu := { s.tabu with tenure := resolvedTenure cfg } }
  else s

/-- Heap version of one loop pass. -/
def searchStepRef {α : Type} [LinearOrderedAddCommGroup α] (cfg : SearchConfig)
    (maxNoImp : Nat) (D : Nat → Nat → α) (s : RefState α) : RefState α × Bool :=
  if maxNoImp ≤ (commitPhaseRef cfg D s).noImprovement then (commitPhaseRef cfg D s, true)
  else (dynamicAdjustRef cfg (commitPhaseRef cfg D s), false)

/-- Heap version of the `while` loop. -/
def searchRunRef {α : Type} [LinearOrderedAddCommGroup α] (cfg : SearchConfig)
    (maxNoImp : Nat) (D : Nat → Nat → α) (timeOk : Nat → Bool) :
    Nat → RefState α → RefState α
  | 0, s => s
  | fuel + 1, s =>
    if timeOk s.iteration then
      if (searchStepRef cfg maxNoImp D s).2 then (searchStepRef cfg maxNoImp D s).1
      else searchRunRef cfg maxNoImp D timeOk fuel (searchStepRef cfg maxNoImp D s).1
    else s

/-- Heap version of `tabu_search_optimization` on an input tour object `r`:
`current_tour = tour.copy()` then `best_tour = current_tour.copy()` allocate the two
working objects, after which the loop runs; the caller's object `r` is only ever
read. -/
def tabu_search_optimization_ref {α : Type} [LinearOrderedAddCommGroup α]
    (cfg : SearchConfig) (D : Nat → Nat → α) (timeOk : Nat → Bool) (h : Heap)
    (r : Nat) : RefState α :=
  searchRunRef cfg (cfg.maxNoImprovement.getD (resolvedTenure cfg * 2)) D timeOk
    cfg.maxIterations
    { heap := (hAlloc (hAlloc h (hRead h r)).1
        (hRead (hAlloc h (hRead h r)).1 (hAlloc h (hRead h r)).2)).1,
      currentRef := (hAlloc h (hRead h r)).2,
      currentLength := calculate_tour_length (hRead h r) D,
      bestRef := (hAlloc (hAlloc h (hRead h r)).1
        (hRead (hAlloc h (hRead h r)).1 (hAlloc h (hRead h r)).2)).2,
      bestLength := calculate_tour_length (hRead h r) D,
      iteration := 0, noImprovement := 0,
      tabu := { tenure := resolvedTenure cfg, entries := [] } }

/-- Heap extension: all previously allocated objects keep their contents. -/
def HExt (h h' : Heap) : Prop :=
  h.length ≤ h'.length ∧ ∀ r, r < h.length → hRead h' r = hRead h r

lemma HExt_refl (h : Heap) : HExt h h := ⟨le_refl _, fun _ _ => rfl⟩

lemma HExt_trans {h1 h2 h3 : Heap} (a : HExt h1 h2) (b : HExt h2 h3) : HExt h1 h3 :=
  ⟨le_trans a.1 b.1, fun r hr => (b.2 r (lt_of_lt_of_le hr a.1)).trans (a.2 r hr)⟩

lemma hRead_append_lt (h : Heap) (v : List Nat) (r : Nat) (hr : r < h.length) :
    hRead (h ++ [v]) r = hRead h r := by
  unfold hRead
  exact List.getD_append h [v] [] r hr

lemma HExt_alloc (h : Heap) (v : List Nat) : HExt h (hAlloc h v).1 := by
  refine ⟨by simp [hAlloc], fun r hr => hRead_append_lt h v r hr⟩

/-- The slice assignment inside `apply_2opt_move_ref` touches only the freshly
allocated cell: every pre-existing object keeps its contents. -/
lemma HExt_apply_2opt_move_ref (h : Heap) (r i j : Nat) :
    HExt h (apply_2opt_move_ref h r i j).1 := by
  unfold apply_2opt_move_ref hWrite hAlloc
  constructor
  · simp
  · intro r' hr
    unfold hRead
    rw [List.getD_eq_getElem?_getD, List.getElem?_set_ne (by omega),
        ← List.getD_eq_getElem?_getD]
    exact hRead_append_lt h _ r' hr

lemma HExt_generate_ref (h : Heap) (r : Nat) :
    HExt h (generate_2opt_neighbors_ref h r).1 := by
  unfold generate_2opt_neighbors_ref
  generalize moveIndexPairs (hRead h r).length = ps
  suffices H : ∀ (ps : List (Nat × Nat)) (st : Heap × List (Nat × Move)),
      HExt st.1 (ps.foldl (fun acc p =>
        ((apply_2opt_move_ref acc.1 r p.1 p.2).1,
          acc.2 ++ [((apply_2opt_move_ref acc.1 r p.1 p.2).2, ("2opt", p.1, p.2))]))
        st).1 by
    exact H ps (h, [])
  intro ps
  induction ps with
  | nil => intro st; exact HExt_refl _
  | cons p rest ih =>
    intro st
    rw [List.foldl_cons]
    exact HExt_trans (HExt_apply_2opt_move_ref st.1 r p.1 p.2)
      (ih ((apply_2opt_move_ref st.1 r p.1 p.2).1,
        st.2 ++ [((apply_2opt_move_ref st.1 r p.1 p.2).2, ("2opt", p.1, p.2))]))

lemma HExt_commitPhaseRef {α : Type} [LinearOrderedAddCommGroup α] (cfg : SearchConfig)
    (D : Nat → Nat → α) (s : RefState α) : HExt s.heap (commitPhaseRef cfg D s).heap := by
  unfold commitPhaseRef
  cases hscan : (scanRef cfg D s).1 with
  | none => exact HExt_generate_ref s.heap s.currentRef
  | some v =>
    obtain ⟨nbRef, len, mv⟩ := v
    simp only
    split_ifs
    · exact HExt_trans (HExt_generate_ref s.heap s.currentRef)
        (HExt_alloc (genHeap s) (hRead (genHeap s) nbRef))
    · exact HExt_generate_ref s.heap s.currentRef

lemma HExt_searchStepRef {α : Type} [LinearOrderedAddCommGroup α] (cfg : SearchConfig)
    (maxNoImp : Nat) (D : Nat → Nat → α) (s : RefState α) :
    HExt s.heap (searchStepRef cfg maxNoImp D s).1.heap := by
  unfold searchStepRef
  have hda : (dynamicAdjustRef cfg (commitPhaseRef cfg D s)).heap
      = (commitPhaseRef cfg D s).heap := by
    unfold dynamicAdjustRef
    split_ifs <;> rfl
  split_ifs
  · exact HExt_commitPhaseRef cfg D s
  · rw [hda]
    exact HExt_commitPhaseRef cfg D s

lemma HExt_searchRunRef {α : Type} [LinearOrderedAddCommGroup α] (cfg : SearchConfig)
    (maxNoImp : Nat) (D : Nat → Nat → α) (timeOk : Nat → Bool) :
    ∀ (fuel : Nat) (s : RefState α), HExt s.heap (searchRunRef cfg maxNoImp D timeOk fuel s).heap := by
  intro fuel
  induction fuel with
  | zero => intro s; exact HExt_refl _
  | succ fuel ih =>
    intro s
    unfold searchRunRef
    split_ifs
    · exact HExt_searchStepRef cfg maxNoImp D s
    · exact HExt_trans (HExt_searchStepRef cfg maxNoImp D s) (ih _)
    · exact HExt_refl _

/-- C10: `tabu_search_optimization` never mutates the caller's tour object — after the
whole search the cell passed in holds exactly the list it held before — and every
candidate neighbor is built by writing only a cell freshly allocated from a copy, never
an existing one. -/
theorem tabu_search_no_input_mutation :
    (∀ (α : Type) (inst : LinearOrderedAddCommGroup α) (cfg : SearchConfig)
        (D : Nat → Nat → α) (timeOk : Nat → Bool) (h : Heap) (r : Nat), r < h.length →
      hRead (tabu_search_optimization_ref (α := α) cfg D timeOk h r).heap r
        = hRead h r) ∧
    (∀ (h : Heap) (r i j r' : Nat), r' < h.length →
      hRead (apply_2opt_move_ref h r i j).1 r' = hRead h r') := by
  constructor
  · intro α inst cfg D timeOk h r hr
    unfold tabu_search_optimization_ref
    have hinit : HExt h (hAlloc (hAlloc h (hRead h r)).1
        (hRead (hAlloc h (hRead h r)).1 (hAlloc h (hRead h r)).2)).1 :=
      HExt_trans (HExt_alloc h (hRead h r)) (HExt_alloc _ _)
    have hrun := HExt_searchRunRef (α := α) cfg
      (cfg.maxNoImprovement.getD (resolvedTenure cfg * 2)) D timeOk cfg.maxIterations
      { heap := (hAlloc (hAlloc h (hRead h r)).1
          (hRead (hAlloc h (hRead h r)).1 (hAlloc h (hRead h r)).2)).1,
        currentRef := (hAlloc h (hRead h r)).2,
        currentLength := calculate_tour_length (hRead h r) D,
        bestRef := (hAlloc (hAlloc h (hRead h r)).1
          (hRead (hAlloc h (hRead h r)).1 (hAlloc h (hRead h r)).2)).2,
        bestLength := calculate_tour_length (hRead h r) D,
        iteration := 0, noImprovement := 0,
        tabu := { tenure := resolvedTenure cfg, entries := [] } }
    exact ((HExt_trans hinit hrun).2 r hr)
  · intro h r i j r' hr
    exact (HExt_apply_2opt_move_ref h r i j).2 r' hr

/-- Witness for `tabu_search_no_input_mutation`: a concrete one-object heap is
unchanged at the input reference after a full run. -/
theorem tabu_search_no_input_mutation_witness :
    hRead (tabu_search_optimization_ref (α := ℤ) cfgC6 (fun _ _ => (1 : ℤ))
        (fun _ => true) [[0, 1, 2, 3]] 0).heap 0 = hRead [[0, 1, 2, 3]] 0 ∧
    hRead (apply_2opt_move_ref [[0, 1, 2, 3]] 0 0 2).1 0 = hRead [[0, 1, 2, 3]] 0 :=
  ⟨tabu_search_no_input_mutation.1 ℤ inferInstance cfgC6 (fun _ _ => (1 : ℤ))
      (fun _ => true) [[0, 1, 2, 3]] 0 (by decide),
   tabu_search_no_input_mutation.2 [[0, 1, 2, 3]] 0 0 2 0 (by decide)⟩
